import Mathlib

/-!
Shallow embedding of `lifelines/fitters/kaplan_meier_fitter.py` (class
`KaplanMeierFitter`) together with the statements settling the specification
claims about it.

Modelling conventions:
* Machine floats are modelled by exact numbers; where a claim is about IEEE
  special values (`inf`, `-inf`, `nan`) the carriers `RVal` (over `ℚ`, for the
  purely rational Greenwood variance term) and `NpR` (over `ℝ`, for the
  logarithmic survival term) make the special values explicit.
* The process-wide numeric error-reporting mode mutated by `np.seterr` is
  threaded as explicit state through the `_st` variants of the two interval
  contribution functions.
* Collaborators imported from `lifelines.utils` (`_preprocess_inputs`,
  `_additive_estimate`, `median_survival_times`, `inv_normal_cdf`) are part of
  the repository but outside the excerpted source; `fit` is parameterized over
  them, and concrete instances modelled from the spec are provided for
  evaluation at concrete inputs.
-/

/-- Extended value of a numpy float computation over exact rationals: a finite
rational, one of the two infinities, or nan. -/
inductive RVal where
  | fin (q : ℚ)
  | inf
  | ninf
  | nan
deriving DecidableEq, Repr

/-- IEEE division of finite values held as rationals, with `bnegzero` the sign
bit of the divisor when its value is zero (distinguishing `-0.0` from `+0.0`):
finite quotient when the divisor is nonzero, a signed infinity — the XOR of
the dividend's sign and the zero divisor's sign bit — for a nonzero dividend
over a zero, and nan for `0 / ±0.0`. -/
def npDivQ (a b : ℚ) (bnegzero : Bool) : RVal :=
  if b = 0 then
    (if 0 < a then (if bnegzero then RVal.ninf else RVal.inf)
     else if a < 0 then (if bnegzero then RVal.inf else RVal.ninf)
     else RVal.nan)
  else RVal.fin (a / b)

/-- Embedding of pandas `.replace([np.inf], 0)`: positive infinity becomes `0`,
every other value (including nan and negative infinity) is kept. -/
def replaceInfWithZero (v : RVal) : RVal :=
  if v = RVal.inf then RVal.fin 0 else v

/-- Sign bit of the float product `p * (p - d)` when its value is zero: IEEE
multiplication XORs the factor sign bits, and the float subtraction `p - d`
yields `+0.0` (never `-0.0`) when `p = d`, so the product is `-0.0` exactly
when one factor is strictly negative and the other zero — in particular
`0.0 * (p - d)` with `d > 0` is `-0.0`. -/
def varDenomNegBit (p d : ℚ) : Bool :=
  decide (p < 0) != decide (p - d < 0)

/-- Scalar body of `KaplanMeierFitter._additive_var` (source line 194):
`1.0 * d / (p * (p - d))`, with `+inf` then replaced by `0`; the sign of a
zero denominator is the float product's sign bit. -/
def additive_var_term (p d : ℚ) : RVal :=
  replaceInfWithZero (npDivQ (1 * d) (p * (p - d)) (varDenomNegBit p d))

/-- Embedding of `KaplanMeierFitter._additive_var`, elementwise over the
aligned at-risk population and death-count vectors. -/
def additive_var (population deaths : List ℚ) : List RVal :=
  List.zipWith additive_var_term population deaths

/-- Extended value of a numpy float computation over the reals. -/
inductive NpR where
  | fin (x : ℝ)
  | inf
  | ninf
  | nan

/-- numpy `log` on a finite real: finite for positive arguments, `-inf` at
zero, nan for negative arguments (the divide/invalid warnings being
suppressed). -/
noncomputable def npLog (x : ℝ) : NpR :=
  if 0 < x then NpR.fin (Real.log x) else if x = 0 then NpR.ninf else NpR.nan

/-- IEEE subtraction on extended values. -/
def npSub : NpR → NpR → NpR
  | NpR.fin a, NpR.fin b => NpR.fin (a - b)
  | NpR.fin _, NpR.inf => NpR.ninf
  | NpR.fin _, NpR.ninf => NpR.inf
  | NpR.inf, NpR.fin _ => NpR.inf
  | NpR.inf, NpR.ninf => NpR.inf
  | NpR.ninf, NpR.fin _ => NpR.ninf
  | NpR.ninf, NpR.inf => NpR.ninf
  | _, _ => NpR.nan

/-- Scalar body of `KaplanMeierFitter._additive_f` (source line 190):
`np.log(population - deaths) - np.log(population)`. -/
noncomputable def additive_f_term (p d : ℝ) : NpR :=
  npSub (npLog (p - d)) (npLog p)

/-- Embedding of `KaplanMeierFitter._additive_f`, elementwise over the aligned
at-risk population and death-count vectors. -/
noncomputable def additive_f (population deaths : List ℝ) : List NpR :=
  List.zipWith additive_f_term population deaths

/-- Process-wide numpy error-reporting mode: the modes (e.g. "warn",
"ignore") currently set for invalid-value and divide-by-zero conditions. -/
structure NumErrState where
  invalid : String
  divide : String
deriving DecidableEq, Repr

/-- Effect of `np.seterr(invalid="ignore", divide="ignore")` as executed by
`_additive_f` (source line 189) on the process-wide mode. -/
def additive_f_seterr (s : NumErrState) : NumErrState :=
  { s with invalid := "ignore", divide := "ignore" }

/-- Effect of `np.seterr(divide="ignore")` as executed by `_additive_var`
(source line 193) on the process-wide mode. -/
def additive_var_seterr (s : NumErrState) : NumErrState :=
  { s with divide := "ignore" }

/-- `KaplanMeierFitter._additive_f` with the process-wide numeric
error-reporting state made explicit: the mode mutation it performs is returned
alongside its value. -/
noncomputable def additive_f_st (s : NumErrState) (population deaths : List ℝ) :
    List NpR × NumErrState :=
  (additive_f population deaths, additive_f_seterr s)

/-- `KaplanMeierFitter._additive_var` with the process-wide numeric
error-reporting state made explicit. -/
def additive_var_st (s : NumErrState) (population deaths : List ℚ) :
    List RVal × NumErrState :=
  (additive_var population deaths, additive_var_seterr s)

/-- Row of the event table consumed by `fit` (spec section 3): one row per
timeline point. -/
structure EventRow where
  time : ℚ
  entrance : ℚ
  removed : ℚ
  observed : ℚ
  censored : ℚ
  at_risk : ℚ
deriving DecidableEq, Repr

abbrev EventTable := List EventRow

/-- Running sums starting from `acc` (helper for pandas `.cumsum()`). -/
def cumsumFrom (acc : ℚ) : List ℚ → List ℚ
  | [] => []
  | x :: xs => (acc + x) :: cumsumFrom (acc + x) xs

/-- pandas `.cumsum()`. -/
def cumsum (l : List ℚ) : List ℚ := cumsumFrom 0 l

/-- Embedding of `(event_table["entrance"] - event_table["removed"]).cumsum()`
(source line 118). -/
def net_population (tbl : EventTable) : List ℚ :=
  cumsum (tbl.map (fun r => r.entrance - r.removed))

/-- The running net population restricted to the first `int(n / 2)` rows
(source lines 119-120). -/
def restricted_net_population (tbl : EventTable) : List ℚ :=
  (net_population tbl).take (tbl.length / 2)

/-- Index labels (times) of the first `int(n / 2)` event-table rows. -/
def restricted_times (tbl : EventTable) : List ℚ :=
  (tbl.map (fun r => r.time)).take (tbl.length / 2)

/-- The restricted running net population indexed by its time labels: the
pandas series `net_population.iloc[: int(n / 2)]` as label/value pairs. -/
def restricted_series (tbl : EventTable) : List (ℚ × ℚ) :=
  (restricted_times tbl).zip (restricted_net_population tbl)

/-- Minimum of a labelled series together with the label of its first
occurrence: the pandas pair `(s.idxmin(), s.min())`; `none` on an empty
series. -/
def minPair : List (ℚ × ℚ) → Option (ℚ × ℚ)
  | [] => none
  | p :: rest =>
    match minPair rest with
    | none => some p
    | some q => if p.2 ≤ q.2 then some p else some q

/-- Embedding of the degeneracy check of `KaplanMeierFitter.fit` (source lines
113-124): performed only when entry times were supplied; fires — returning the
pandas idxmin of the restricted running net population — exactly when the
minimum of that restricted series equals `0`.  (pandas: the `.min()` of an
empty slice is nan and `nan == 0` is false, so a table with fewer than two
rows never fires.) -/
def degeneracy_time (entry : Option (List ℚ)) (tbl : EventTable) : Option ℚ :=
  match entry with
  | none => none
  | some _ =>
    match minPair (restricted_series tbl) with
    | none => none
    | some q => if q.2 = 0 then some q.1 else none

/-- First time at which the restricted running net population hits zero. -/
def first_zero_time (tbl : EventTable) : Option ℚ :=
  ((restricted_series tbl).find? (fun p => p.2 == 0)).map (fun p => p.1)

/-- Result tuple of `_preprocess_inputs` (source line 104; contract in spec
section 6 as `build_event_table`). -/
structure PreprocessResult where
  durations : List ℚ
  event_observed : List Bool
  timeline : List ℚ
  entry : Option (List ℚ)
  event_table : EventTable

/-- Arguments of `KaplanMeierFitter.fit`, with the source defaults. -/
structure FitArgs where
  durations : List ℚ
  event_observed : Option (List Bool) := none
  timeline : Option (List ℚ) := none
  entry : Option (List ℚ) := none
  label : String := "KM_estimate"
  alpha : Option ℚ := none
  left_censorship : Bool := false
  ci_labels : Option (List String) := none
  weights : Option (List ℚ) := none

/-- Fatal failures `fit` can surface: the length-2 assert on the
confidence-interval labels (the spec's ValidationError for a malformed label
pair) and the `StatError` of the degeneracy check, carrying the offending
time. -/
inductive FitError where
  | validation
  | statError (t : ℚ)
deriving DecidableEq, Repr

/-- Non-fatal warnings `fit` can emit (`StatisticalWarning` in the source). -/
inductive FitWarning where
  | statisticalWarning
deriving DecidableEq, Repr

/-- The confidence-interval data frame built by `_bounds`: two named
columns. -/
structure CIFrame where
  columns : List (String × List ℝ)

/-- Column names of a confidence-interval frame, in order. -/
def CIFrame.names (df : CIFrame) : List String := df.columns.map (fun c => c.1)

/-- Instance attributes of a `KaplanMeierFitter`; `none` models an attribute
not yet set.  `alpha` is set by the constructor; all the optional attributes
are written by `fit`.  (The name-mangled private `__estimate` alias, the
dynamically named `plot_*` attribute and `_update_docstrings` are presentation
plumbing and are not modelled.) -/
structure FitterState where
  alpha : ℚ
  durations : Option (List ℚ) := none
  event_observed : Option (List Bool) := none
  timeline : Option (List ℚ) := none
  entry : Option (Option (List ℚ)) := none
  event_table : Option EventTable := none
  _label : Option String := none
  survival_function_ : Option (List ℝ) := none
  cumulative_density_ : Option (List ℝ) := none
  confidence_interval_ : Option CIFrame := none
  median_ : Option ℝ := none
  _cumulative_sq_ : Option (List ℝ) := none
  _estimation_method : Option String := none
  _estimate_name : Option String := none
  _predict_label : Option String := none

/-- Outcome of one call to `fit`: the instance state after the call (Python
leaves the mutations made before an exception in place), the warnings emitted,
and the exception, if one was raised. -/
structure FitResult where
  state : FitterState
  warnings : List FitWarning
  error : Option FitError

/-- The collaborator functions `fit` consumes from `lifelines.utils`.  They
are repository code outside the excerpted source file, so `fit` is
parameterized over them (spec section 6 gives their contracts).  The two
interval-contribution functions, which the source passes to
`_additive_estimate` as fixed arguments, are the `additive_f`/`additive_var`
functions embedded above and are absorbed into the `additive_estimate`
field. -/
structure Collaborators where
  preprocess : List ℚ → Option (List Bool) → Option (List ℚ) → Option (List ℚ) →
    Option (List ℚ) → PreprocessResult
  additive_estimate : EventTable → List ℚ → Bool → List ℝ × List ℝ
  median_survival_times : List ℝ → Bool → ℝ
  inv_normal_cdf : ℝ → ℝ

/-- Format a number for the default confidence-interval column names (the
`%g` conversion of the source, rendered on exact rationals). -/
def fmtQ (q : ℚ) : String := toString q

/-- numpy `.astype(int)` on one value: truncation toward zero. -/
def truncQ (q : ℚ) : ℤ := q.num / (q.den : ℤ)

/-- Upper-bound scalar of `_bounds` (source line 184): with `v = log S` and
cumulative variance `q`, the value `exp(-exp(log(-v) + z*sqrt(q)/v))`. -/
noncomputable def boundUpperOf (z v q : ℝ) : ℝ :=
  Real.exp (-(Real.exp (Real.log (-v) + z * Real.sqrt q / v)))

/-- Lower-bound scalar of `_bounds` (source line 185):
`exp(-exp(log(-v) - z*sqrt(q)/v))`. -/
noncomputable def boundLowerOf (z v q : ℝ) : ℝ :=
  Real.exp (-(Real.exp (Real.log (-v) - z * Real.sqrt q / v)))

/-- Default confidence-interval column names (source line 181); note they use
`1 - alpha`, not `1 - alpha/2`. -/
def defaultCiLabels (label : String) (alpha : ℚ) : List String :=
  [label ++ "_upper_" ++ fmtQ (1 - alpha), label ++ "_lower_" ++ fmtQ (1 - alpha)]

/-- Embedding of `KaplanMeierFitter._bounds` (source lines 173-186): `z` from
the inverse normal cdf at `1 - alpha/2`, `v = np.log(self.__estimate.values)`
re-derived from the exponentiated estimate, the length-2 assert on the labels
(surfaced as the spec's ValidationError), and the two Greenwood exponential
columns, the first labelled column carrying the `+z` formula. -/
noncomputable def bounds (invcdf : ℝ → ℝ) (estimate : List ℝ) (label : String)
    (alpha : ℚ) (ci_labels : Option (List String)) (cumulative_sq : List ℝ) :
    Except FitError CIFrame :=
  let z := invcdf (1 - (alpha : ℝ) / 2)
  let v := estimate.map Real.log
  let labels := match ci_labels with
    | none => defaultCiLabels label alpha
    | some ls => ls
  if labels.length = 2 then
    Except.ok
      { columns :=
          [(labels.headD "", List.zipWith (fun vi qi => boundUpperOf z vi qi) v cumulative_sq),
           ((labels.drop 1).headD "",
             List.zipWith (fun vi qi => boundLowerOf z vi qi) v cumulative_sq)] }
  else Except.error FitError.validation

/-- The `alpha = alpha if alpha else self.alpha` resolution (source line 108):
Python treats both `None` and `0` as falsy. -/
def resolvedAlpha (self : FitterState) (a : FitArgs) : ℚ :=
  match a.alpha with
  | some x => if x = 0 then self.alpha else x
  | none => self.alpha

/-- The warnings a `fit` call emits (source lines 91-100): the statistical
caveat exactly when weights are supplied and `weights.astype(int) != weights`
holds somewhere, `.astype(int)` truncating toward zero. -/
def fitWarnings (a : FitArgs) : List FitWarning :=
  match a.weights with
  | some ws =>
    if ws.any (fun w => decide (((truncQ w : ℚ)) ≠ w)) then [FitWarning.statisticalWarning]
    else []
  | none => []

/-- The instance attributes `fit` has assigned by the time the degeneracy
check runs (source lines 105 and 107): the five preprocessed inputs and the
label. -/
def preResultState (self : FitterState) (v : PreprocessResult) (label : String) :
    FitterState :=
  { self with durations := some v.durations, event_observed := some v.event_observed,
              timeline := some v.timeline, entry := some v.entry,
              event_table := some v.event_table, _label := some label }

/-- Embedding of `setattr(self, estimate_name, estimate)` (source line 127),
where `estimate_name` is one of the two result attribute names. -/
def setattrEstimate (self : FitterState) (estimate_name : String) (est : List ℝ) :
    FitterState :=
  if estimate_name = "survival_function_" then { self with survival_function_ := some est }
  else if estimate_name = "cumulative_density_" then { self with cumulative_density_ := some est }
  else self

/-- Embedding of `KaplanMeierFitter.fit` (source lines 43-140), in source
order: the NaN/Inf validation of durations and event indicators (exact
rationals carry no NaN or Inf, so it always passes in this embedding), the
non-integer-weights warning, the choice of the result attribute name from the
left-censorship flag, preprocessing and the assignment of the five
input-derived attributes plus the label, the additive estimation, the
degeneracy check (which raises `StatError`, leaving the attributes assigned so
far in place), and finally the estimate/confidence-interval/median/variance
assignments. -/
noncomputable def fit (c : Collaborators) (self : FitterState) (a : FitArgs) : FitResult :=
  let warns := fitWarnings a
  let estimate_name := if !a.left_censorship then "survival_function_" else "cumulative_density_"
  let v := c.preprocess a.durations a.event_observed a.timeline a.entry a.weights
  let self := preResultState self v a.label
  let alpha := resolvedAlpha self a
  let est := c.additive_estimate v.event_table v.timeline a.left_censorship
  let log_survival_function := est.1
  let cumulative_sq_ := est.2
  match degeneracy_time a.entry v.event_table with
  | some ix => { state := self, warnings := warns, error := some (FitError.statError ix) }
  | none =>
    let estimate := log_survival_function.map Real.exp
    let self := setattrEstimate self estimate_name estimate
    match bounds c.inv_normal_cdf estimate a.label alpha a.ci_labels cumulative_sq_ with
    | Except.error e => { state := self, warnings := warns, error := some e }
    | Except.ok ci =>
      let self := { self with confidence_interval_ := some ci,
                              median_ := some (c.median_survival_times estimate a.left_censorship),
                              _cumulative_sq_ := some cumulative_sq_,
                              _estimation_method := some estimate_name,
                              _estimate_name := some estimate_name,
                              _predict_label := some a.label }
      { state := self, warnings := warns, error := none }

/-- One subject of the raw inputs: duration, event indicator, entry time,
weight. -/
structure Subject where
  dur : ℚ
  ev : Bool
  ent : ℚ
  w : ℚ

/-- Align the four per-subject input arrays. -/
def zipSubjects : List ℚ → List Bool → List ℚ → List ℚ → List Subject
  | d :: ds, e :: es, t :: ts, w :: ws => ⟨d, e, t, w⟩ :: zipSubjects ds es ts ws
  | _, _, _, _ => []

/-- Total weight of a list of subjects. -/
def sumW (l : List Subject) : ℚ := l.foldr (fun s acc => s.w + acc) 0

/-- Insert a time into a sorted duplicate-free list of times. -/
def insertTime (x : ℚ) : List ℚ → List ℚ
  | [] => [x]
  | y :: ys => if x < y then x :: y :: ys else if x = y then y :: ys else y :: insertTime x ys

/-- Sorted deduplicated list of times. -/
def dedupSort (l : List ℚ) : List ℚ := l.foldr insertTime []

/-- Event-table rows over a timeline, threading the cumulative at-risk count:
per spec section 3, `at_risk` at each point equals cumulative entrances minus
cumulative removals from all strictly earlier points, `observed`/`censored`
are the weighted death/censoring counts at the point, and `entrance` the
weight entering at the point. -/
def buildRows (subs : List Subject) : List ℚ → ℚ → List EventRow
  | [], _ => []
  | t :: rest, cum =>
    let observed := sumW (subs.filter (fun s => decide (s.dur = t) && s.ev))
    let censored := sumW (subs.filter (fun s => decide (s.dur = t) && !s.ev))
    let entrance := sumW (subs.filter (fun s => decide (s.ent = t)))
    let removed := observed + censored
    { time := t, entrance := entrance, removed := removed, observed := observed,
      censored := censored, at_risk := cum } ::
      buildRows subs rest (cum + entrance - removed)

/-- Modelled from the spec: `_preprocess_inputs` (`build_event_table` of spec
section 6) lives in `lifelines.utils`, outside the excerpted source.  Per the
spec: event indicators default to all-observed, weights to unit weight, entry
times to birth at time zero; the timeline is derived from the observed
event/censoring times unless explicitly supplied; the event table has one row
per timeline point with the section-3 column invariants.  (Entrances at times
not on the timeline are not tabulated, the table being indexed by the
timeline.)  Used to evaluate `fit` on concrete inputs; the claim theorems
quantify over arbitrary collaborators. -/
def specPreprocess (durations : List ℚ) (event_observed : Option (List Bool))
    (timeline : Option (List ℚ)) (entry : Option (List ℚ)) (weights : Option (List ℚ)) :
    PreprocessResult :=
  let n := durations.length
  let events := event_observed.getD (List.replicate n true)
  let w := weights.getD (List.replicate n 1)
  let entryTimes := entry.getD (List.replicate n 0)
  let tl := timeline.getD (dedupSort durations)
  let subs := zipSubjects durations events entryTimes w
  { durations := durations, event_observed := events, timeline := tl, entry := entry,
    event_table := buildRows subs tl 0 }

/-- Running real-valued sums starting from `acc`. -/
def cumsumRFrom (acc : ℝ) : List ℝ → List ℝ
  | [] => []
  | x :: xs => (acc + x) :: cumsumRFrom (acc + x) xs

/-- Modelled from the spec: the external additive scaffold
`_additive_estimate` (spec section 6 `accumulate`) cumulatively sums
per-interval contributions across the timeline into the running log-survival
and cumulative-variance sequences.  Real-valued stand-in (with Lean's
division-by-zero convention at degenerate rows) used only to evaluate `fit`
at concrete inputs; the claim theorems quantify over arbitrary
collaborators. -/
noncomputable def specAccumulate (tbl : EventTable) (_tl : List ℚ) (_lc : Bool) :
    List ℝ × List ℝ :=
  (cumsumRFrom 0 (tbl.map (fun r => Real.log (((r.at_risk - r.observed) / r.at_risk : ℚ) : ℝ))),
   cumsumRFrom 0 (tbl.map (fun r => ((r.observed / (r.at_risk * (r.at_risk - r.observed)) : ℚ) : ℝ))))

/-- Integral of the standard normal density over `(-∞, x]`. -/
noncomputable def stdNormalCDF (x : ℝ) : ℝ :=
  ∫ t in Set.Iic x, ProbabilityTheory.gaussianPDFReal 0 1 t

/-- Modelled from the spec: `inv_normal_cdf` is imported from
`lifelines.utils`, outside the excerpted source; spec sections 4.3 and 6 call
it the inverse-standard-normal-CDF, modelled here as the generalized inverse
of `stdNormalCDF`. -/
noncomputable def inv_normal_cdf (p : ℝ) : ℝ :=
  sInf {x : ℝ | p ≤ stdNormalCDF x}

/-- Modelled from the spec: the median utility is an external collaborator
whose computation is out of the core's scope (spec section 1); constant
stand-in used only to evaluate `fit` at concrete inputs. -/
def specMedian (_estimate : List ℝ) (_lc : Bool) : ℝ := 0

/-- The collaborator instances modelled from the spec, used to evaluate `fit`
at concrete inputs. -/
noncomputable def specCollaborators : Collaborators :=
  { preprocess := specPreprocess
    additive_estimate := specAccumulate
    median_survival_times := specMedian
    inv_normal_cdf := inv_normal_cdf }

/-- A freshly constructed fitter: `alpha` set by the constructor, no result
attribute present yet. -/
def freshFitter (alpha : ℚ) : FitterState := { alpha := alpha }

/-- Upper confidence bound at one timeline point as `_bounds` computes it:
`z` from the inverse normal cdf at `1 - alpha/2`, `v = log S` re-derived from
the exponentiated estimate, value `exp(-exp(log(-v) + z*sqrt(V)/v))`. -/
noncomputable def boundUpper (S V alpha : ℝ) : ℝ :=
  boundUpperOf (inv_normal_cdf (1 - alpha / 2)) (Real.log S) V

/-- Lower confidence bound at one timeline point as `_bounds` computes it:
value `exp(-exp(log(-v) - z*sqrt(V)/v))`. -/
noncomputable def boundLower (S V alpha : ℝ) : ℝ :=
  boundLowerOf (inv_normal_cdf (1 - alpha / 2)) (Real.log S) V

/-- The confidence-interval column labels a `fit` call will use: the supplied
pair if given, else the defaults derived from the label and the resolved
significance level. -/
def ciLabelsArg (s : FitterState) (a : FitArgs) : List String :=
  match a.ci_labels with
  | none => defaultCiLabels a.label (resolvedAlpha s a)
  | some ls => ls

/-- The event table a `fit` call computes from its inputs. -/
def preprocessedTable (c : Collaborators) (a : FitArgs) : EventTable :=
  (c.preprocess a.durations a.event_observed a.timeline a.entry a.weights).event_table

/-- The point-estimate values a `fit` call computes: the exponentiated
accumulated log-survival sequence. -/
noncomputable def fitEstimate (c : Collaborators) (a : FitArgs) : List ℝ :=
  ((c.additive_estimate
      (c.preprocess a.durations a.event_observed a.timeline a.entry a.weights).event_table
      (c.preprocess a.durations a.event_observed a.timeline a.entry a.weights).timeline
      a.left_censorship).1).map Real.exp

/-- Concrete inputs whose restricted running net population attains a zero
minimum: the degeneracy check fires at time 2. -/
def degenerateArgs : FitArgs :=
  { durations := [2, 3, 4, 5], entry := some [2, 3, 0, 0] }

/-- The degenerate inputs together with a malformed (length-1) custom
confidence-interval label list. -/
def degenerateBadLabelArgs : FitArgs :=
  { durations := [2, 3, 4, 5], entry := some [2, 3, 0, 0], ci_labels := some ["a"] }

/-- Concrete inputs with no entry times and default labels. -/
def plainArgs : FitArgs := { durations := [2, 3, 4, 5] }

/-- Concrete inputs with no entry times and a malformed (length-1) custom
confidence-interval label list. -/
def badLabelArgs : FitArgs := { durations := [1], ci_labels := some ["a"] }

/-- Concrete inputs whose event table has exactly one row, with entry times
supplied and the row's net population equal to zero. -/
def singleRowArgs : FitArgs := { durations := [5], entry := some [5] }

/-- Concrete inputs carrying a non-integral weight. -/
def fractionalWeightArgs : FitArgs := { durations := [2, 3], weights := some [1, 3/2] }

/-- Concrete inputs carrying integral weights only. -/
def integralWeightArgs : FitArgs := { durations := [2, 3], weights := some [1, 2] }

/-- Concrete inputs for a left-censorship fit. -/
def leftCensorshipArgs : FitArgs := { durations := [2, 3], left_censorship := true }

/-- The event table built from the degenerate inputs: net population
`[0, 0, -1, -2]`, whose first half `[0, 0]` attains a zero minimum first at
time 2. -/
def degenerateTable : EventTable :=
  [⟨2, 1, 1, 1, 0, 0⟩, ⟨3, 1, 1, 1, 0, 0⟩, ⟨4, 0, 1, 1, 0, 0⟩, ⟨5, 0, 1, 1, 0, -1⟩]

@[simp] theorem replaceInf_fin (q : ℚ) : replaceInfWithZero (RVal.fin q) = RVal.fin q := rfl

@[simp] theorem replaceInf_inf : replaceInfWithZero RVal.inf = RVal.fin 0 := rfl

@[simp] theorem replaceInf_ninf : replaceInfWithZero RVal.ninf = RVal.ninf := rfl

@[simp] theorem replaceInf_nan : replaceInfWithZero RVal.nan = RVal.nan := rfl

theorem minPair_eq_none_iff (l : List (ℚ × ℚ)) : minPair l = none ↔ l = [] := by
  cases l with
  | nil => simp [minPair]
  | cons p rest =>
    simp only [minPair]
    cases minPair rest with
    | none => simp
    | some q =>
      by_cases h : p.2 ≤ q.2 <;> simp [h]

theorem minPair_mem : ∀ {l : List (ℚ × ℚ)} {q : ℚ × ℚ}, minPair l = some q → q ∈ l := by
  intro l
  induction l with
  | nil => intro q h; simp [minPair] at h
  | cons p rest ih =>
    intro q h
    cases hr : minPair rest with
    | none =>
      simp only [minPair, hr, Option.some.injEq] at h
      subst h
      exact List.mem_cons_self p rest
    | some m =>
      simp only [minPair, hr] at h
      by_cases hle : p.2 ≤ m.2
      · rw [if_pos hle] at h
        simp only [Option.some.injEq] at h
        subst h
        exact List.mem_cons_self p rest
      · rw [if_neg hle] at h
        simp only [Option.some.injEq] at h
        subst h
        exact List.mem_cons_of_mem p (ih hr)

theorem minPair_le : ∀ {l : List (ℚ × ℚ)} {q : ℚ × ℚ}, minPair l = some q →
    ∀ p ∈ l, q.2 ≤ p.2 := by
  intro l
  induction l with
  | nil => intro q h; simp [minPair] at h
  | cons p rest ih =>
    intro q h
    cases hr : minPair rest with
    | none =>
      simp only [minPair, hr, Option.some.injEq] at h
      subst h
      rw [minPair_eq_none_iff] at hr
      subst hr
      intro x hx
      simp only [List.mem_singleton] at hx
      subst hx
      exact le_refl _
    | some m =>
      simp only [minPair, hr] at h
      by_cases hle : p.2 ≤ m.2
      · rw [if_pos hle] at h
        simp only [Option.some.injEq] at h
        subst h
        intro x hx
        rcases List.mem_cons.mp hx with rfl | hx
        · exact le_refl _
        · exact le_trans hle (ih hr x hx)
      · rw [if_neg hle] at h
        simp only [Option.some.injEq] at h
        subst h
        intro x hx
        rcases List.mem_cons.mp hx with rfl | hx
        · exact le_of_not_le hle
        · exact ih hr x hx

theorem minPair_find : ∀ {l : List (ℚ × ℚ)} {q : ℚ × ℚ}, minPair l = some q →
    l.find? (fun p => p.2 == q.2) = some q := by
  intro l
  induction l with
  | nil => intro q h; simp [minPair] at h
  | cons p rest ih =>
    intro q h
    cases hr : minPair rest with
    | none =>
      simp only [minPair, hr, Option.some.injEq] at h
      subst h
      rw [minPair_eq_none_iff] at hr
      subst hr
      simp [List.find?]
    | some m =>
      simp only [minPair, hr] at h
      by_cases hle : p.2 ≤ m.2
      · rw [if_pos hle] at h
        simp only [Option.some.injEq] at h
        subst h
        simp [List.find?]
      · rw [if_neg hle] at h
        simp only [Option.some.injEq] at h
        subst h
        have hne : ¬ (p.2 == m.2) = true := by
          simp only [beq_iff_eq]
          intro hc
          exact hle (le_of_eq hc)
        rw [List.find?]
        simp only [hne, Bool.false_eq_true, cond_false]
        exact ih hr

theorem cumsumFrom_length (acc : ℚ) (l : List ℚ) : (cumsumFrom acc l).length = l.length := by
  induction l generalizing acc with
  | nil => simp [cumsumFrom]
  | cons x xs ih => simp [cumsumFrom, ih]

theorem restricted_lengths (tbl : EventTable) :
    (restricted_times tbl).length = (restricted_net_population tbl).length := by
  simp [restricted_times, restricted_net_population, net_population, cumsum, cumsumFrom_length]

theorem map_snd_restricted (tbl : EventTable) :
    (restricted_series tbl).map Prod.snd = restricted_net_population tbl :=
  List.map_snd_zip _ _ (le_of_eq (restricted_lengths tbl).symm)

/-- The degeneracy check fires with time `t` exactly when entry times were
supplied, the restricted running net population attains a minimum of zero, and
`t` is the first time at which it hits zero. -/
theorem degeneracy_time_eq_some_iff (entry : Option (List ℚ)) (tbl : EventTable) (t : ℚ) :
    degeneracy_time entry tbl = some t ↔
      entry.isSome = true ∧
      (0 ∈ restricted_net_population tbl ∧ ∀ x ∈ restricted_net_population tbl, 0 ≤ x) ∧
      first_zero_time tbl = some t := by
  cases entry with
  | none => simp [degeneracy_time]
  | some e =>
    simp only [degeneracy_time, Option.isSome_some, true_and]
    constructor
    · intro h
      cases hm : minPair (restricted_series tbl) with
      | none =>
        simp only [hm] at h
        exact Option.noConfusion h
      | some q =>
        simp only [hm] at h
        by_cases hq : q.2 = 0
        · rw [if_pos hq] at h
          have hqt : q.1 = t := Option.some.inj h
          have hqmem : q.2 ∈ restricted_net_population tbl :=
            map_snd_restricted tbl ▸ List.mem_map_of_mem Prod.snd (minPair_mem hm)
          refine ⟨⟨hq ▸ hqmem, ?_⟩, ?_⟩
          · intro x hx
            obtain ⟨p, hp, hpx⟩ := List.mem_map.mp ((map_snd_restricted tbl).symm ▸ hx)
            have := minPair_le hm p hp
            rw [hpx, hq] at this
            exact this
          · have hfind := minPair_find hm
            rw [hq] at hfind
            unfold first_zero_time
            rw [hfind]
            simp [hqt]
        · rw [if_neg hq] at h
          cases h
    · rintro ⟨⟨hmem, hall⟩, hfz⟩
      have hne : restricted_series tbl ≠ [] := by
        intro hnil
        have hms := map_snd_restricted tbl
        rw [hnil] at hms
        rw [← hms] at hmem
        simp at hmem
      obtain ⟨q, hm⟩ : ∃ q, minPair (restricted_series tbl) = some q := by
        cases hq : minPair (restricted_series tbl) with
        | none => exact absurd ((minPair_eq_none_iff _).mp hq) hne
        | some q => exact ⟨q, rfl⟩
      have hq2 : q.2 = 0 := by
        have hq_mem : q.2 ∈ restricted_net_population tbl :=
          map_snd_restricted tbl ▸ List.mem_map_of_mem Prod.snd (minPair_mem hm)
        have h1 : 0 ≤ q.2 := hall _ hq_mem
        obtain ⟨p, hp, hp0⟩ := List.mem_map.mp ((map_snd_restricted tbl).symm ▸ hmem)
        have h2 : q.2 ≤ p.2 := minPair_le hm p hp
        rw [hp0] at h2
        exact le_antisymm h2 h1
      have hfind := minPair_find hm
      rw [hq2] at hfind
      have hfz' : first_zero_time tbl = some q.1 := by
        unfold first_zero_time
        rw [hfind]
        rfl
      rw [hfz'] at hfz
      have hqt : q.1 = t := Option.some.inj hfz
      simp [hm, hq2, hqt]

/-- Full case analysis of the Greenwood variance term: a finite ratio when
the denominator is nonzero; at a zero denominator, the raw division is `+inf`
— replaced by `0` — only when `p = d ≠ 0` (the zero denominator is `+0.0`),
nan when `p = d = 0` (the raw `0/0`), and `-inf` — which the replacement
leaves — when `p = 0` with `d ≠ 0`, the float denominator being the signed
zero `0.0 * (p - d)`. -/
theorem additive_var_term_eq (p d : ℚ) :
    additive_var_term p d =
      if p * (p - d) = 0 then
        (if p = d then (if d = 0 then RVal.nan else RVal.fin 0) else RVal.ninf)
      else RVal.fin (d / (p * (p - d))) := by
  unfold additive_var_term npDivQ varDenomNegBit
  simp only [one_mul]
  by_cases h : p * (p - d) = 0
  · by_cases hpd : p = d
    · subst hpd
      by_cases hp0 : p = 0
      · simp [h, hp0]
      · rcases lt_or_gt_of_ne hp0 with hneg | hpos
        · simp [h, hneg, not_lt.mpr (le_of_lt hneg), hp0]
        · simp [h, hpos, not_lt.mpr (le_of_lt hpos), hp0]
    · have hp0 : p = 0 := by
        rcases mul_eq_zero.mp h with h1 | h1
        · exact h1
        · exact absurd (sub_eq_zero.mp h1) hpd
      subst hp0
      have hd0 : d ≠ 0 := fun hc => hpd (hc.symm)
      rcases lt_or_gt_of_ne hd0 with hneg | hpos
      · simp [h, hneg, not_lt.mpr (le_of_lt hneg), hpd]
      · simp [h, hpos, not_lt.mpr (le_of_lt hpos), hpd]
  · simp [h]

/-- C2, counterexample: where the at-risk population and the death count are
both `0`, the raw division is `0/0`, which is nan; where the population is
`0` with a positive death count, the float denominator is
`0.0 * (0 - d) = -0.0` and the raw division is `-inf`; `.replace([np.inf],
0)` replaces neither, so the function returns non-finite values, not the
exact `0` the claim requires at indices with `p * (p - d) == 0`. -/
theorem claim2_counterexample :
    additive_var [0, 0] [0, 1] = [RVal.nan, RVal.ninf] ∧
    additive_var [0, 0] [0, 1] ≠ [RVal.fin 0, RVal.fin 0] := by
  have h : additive_var [0, 0] [0, 1] = [RVal.nan, RVal.ninf] := by
    norm_num [additive_var, additive_var_term, npDivQ, varDenomNegBit]
  refine ⟨h, ?_⟩
  rw [h]
  decide

/-- C2, amended: the variance-increment function returns `d / (p * (p - d))`
elementwise; at an index with a zero denominator it returns exactly `0` when
`p = d ≠ 0` (the raw `+inf` over the `+0.0` denominator is replaced by `0`),
but nan when `p = d = 0` (the raw `0/0`), and `-inf` when `p = 0` with
`d ≠ 0` (the float denominator is the signed zero `0.0 * (p - d)`, giving a
`-inf` that `.replace([np.inf], 0)` leaves). -/
theorem claim2_additive_var_amended (population deaths : List ℚ) :
    additive_var population deaths =
      List.zipWith
        (fun p d =>
          if p * (p - d) = 0 then
            (if p = d then (if d = 0 then RVal.nan else RVal.fin 0) else RVal.ninf)
          else RVal.fin (d / (p * (p - d))))
        population deaths := by
  unfold additive_var
  congr 1
  funext p d
  exact additive_var_term_eq p d

/-- The log-survival increment at an interval where everyone at risk dies:
`-inf` for a positive population, nan when the population is `0` (since
`log(0) - log(0)` is `(-inf) - (-inf)`, which is nan). -/
theorem additive_f_term_self (p : ℝ) :
    additive_f_term p p = if 0 < p then NpR.ninf else NpR.nan := by
  unfold additive_f_term
  have h0 : npLog (p - p) = NpR.ninf := by simp [npLog, sub_self]
  rw [h0]
  unfold npLog
  by_cases hp : 0 < p
  · simp [hp, npSub]
  · by_cases hp0 : p = 0
    · simp [hp, hp0, npSub]
    · simp [hp, hp0, npSub]

/-- C3, counterexample: at the index where `p == d` but both are `0`, the
log-survival increment is `log(0) - log(0) = (-inf) - (-inf)`, which is nan,
not the `-inf` the claim requires at every index with `p == d`. -/
theorem claim3_counterexample :
    additive_f [0] [0] = [NpR.nan] ∧ NpR.nan ≠ NpR.ninf := by
  constructor
  · have h : additive_f_term 0 0 = NpR.nan := by
      have := additive_f_term_self 0
      simpa using this
    simp [additive_f, h]
  · exact fun h => NpR.noConfusion h

/-- C3, amended: the log-survival increment function returns
`log(p - d) - log(p)` elementwise without raising; at every index where
`p == d` it returns `-inf` when `p > 0`, and nan when `p == d == 0`. -/
theorem claim3_additive_f_amended (population deaths : List ℝ) (i : ℕ)
    (hp : i < population.length) (hd : i < deaths.length)
    (heq : population.getD i 0 = deaths.getD i 0) :
    (additive_f population deaths).getD i NpR.nan =
      if 0 < population.getD i 0 then NpR.ninf else NpR.nan := by
  induction population generalizing deaths i with
  | nil => simp at hp
  | cons a ps ih =>
    cases deaths with
    | nil => simp at hd
    | cons b ds =>
      cases i with
      | zero =>
        simp only [List.getD_cons_zero] at heq ⊢
        have hrw : additive_f (a :: ps) (b :: ds) = additive_f_term a b :: additive_f ps ds := rfl
        rw [hrw, List.getD_cons_zero, ← heq]
        exact additive_f_term_self a
      | succ n =>
        simp only [List.getD_cons_succ] at heq ⊢
        have hrw : additive_f (a :: ps) (b :: ds) = additive_f_term a b :: additive_f ps ds := rfl
        rw [hrw, List.getD_cons_succ]
        exact ih ds n (by simpa using hp) (by simpa using hd) heq

/-- Witness for the amended C3 theorem at `p = d = 2`. -/
theorem claim3_additive_f_amended_witness :
    0 < ([(2:ℝ)] : List ℝ).length ∧ 0 < ([(2:ℝ)] : List ℝ).length ∧
    ([(2:ℝ)] : List ℝ).getD 0 0 = ([(2:ℝ)] : List ℝ).getD 0 0 ∧
    (additive_f [(2:ℝ)] [(2:ℝ)]).getD 0 NpR.nan =
      (if 0 < ([(2:ℝ)] : List ℝ).getD 0 0 then NpR.ninf else NpR.nan) :=
  ⟨by norm_num, by norm_num, rfl,
    claim3_additive_f_amended [(2:ℝ)] [(2:ℝ)] 0 (by norm_num) (by norm_num) rfl⟩

theorem stdNormalCDF_mono : Monotone stdNormalCDF := by
  intro x y hxy
  refine MeasureTheory.setIntegral_mono_set
    ((ProbabilityTheory.integrable_gaussianPDFReal 0 1).integrableOn)
    (MeasureTheory.ae_restrict_of_ae (Filter.Eventually.of_forall
      (ProbabilityTheory.gaussianPDFReal_nonneg 0 1)))
    (HasSubset.Subset.eventuallyLE (Set.Iic_subset_Iic.mpr hxy))

theorem gaussianPDFReal_symm (x : ℝ) :
    ProbabilityTheory.gaussianPDFReal 0 1 (-x) = ProbabilityTheory.gaussianPDFReal 0 1 x := by
  simp [ProbabilityTheory.gaussianPDFReal, sub_zero, neg_sq]

theorem stdNormalCDF_zero : stdNormalCDF 0 = 1 / 2 := by
  have htot : (∫ t, ProbabilityTheory.gaussianPDFReal 0 1 t) = 1 :=
    ProbabilityTheory.integral_gaussianPDFReal_eq_one 0 (by norm_num)
  have hint := ProbabilityTheory.integrable_gaussianPDFReal 0 1
  have hsplit := MeasureTheory.integral_add_compl (measurableSet_Iic (a := (0:ℝ))) hint
  rw [Set.compl_Iic] at hsplit
  have hrefl : (∫ t in Set.Ioi (0:ℝ), ProbabilityTheory.gaussianPDFReal 0 1 t) =
      ∫ t in Set.Iic (0:ℝ), ProbabilityTheory.gaussianPDFReal 0 1 t := by
    have h := integral_comp_neg_Iic (0:ℝ) (ProbabilityTheory.gaussianPDFReal 0 1)
    simp only [neg_zero] at h
    rw [← h]
    exact MeasureTheory.setIntegral_congr_fun measurableSet_Iic
      (fun x _ => gaussianPDFReal_symm x)
  unfold stdNormalCDF
  rw [htot, hrefl] at hsplit
  linarith

/-- The inverse standard normal cdf is nonnegative above the median. -/
theorem inv_normal_cdf_nonneg (p : ℝ) (hp : 1 / 2 < p) : 0 ≤ inv_normal_cdf p := by
  apply Real.sInf_nonneg
  intro x hx
  by_contra hneg
  push_neg at hneg
  have hm : stdNormalCDF x ≤ stdNormalCDF 0 := stdNormalCDF_mono (le_of_lt hneg)
  rw [stdNormalCDF_zero] at hm
  have : p ≤ 1 / 2 := le_trans hx hm
  linarith

theorem boundUpperOf_mem (z v q : ℝ) : boundUpperOf z v q ∈ Set.Icc (0:ℝ) 1 :=
  ⟨(Real.exp_pos _).le, Real.exp_le_one_iff.mpr (neg_nonpos.mpr (Real.exp_pos _).le)⟩

theorem boundLowerOf_mem (z v q : ℝ) : boundLowerOf z v q ∈ Set.Icc (0:ℝ) 1 :=
  ⟨(Real.exp_pos _).le, Real.exp_le_one_iff.mpr (neg_nonpos.mpr (Real.exp_pos _).le)⟩

theorem le_boundUpperOf (z v q : ℝ) (hz : 0 ≤ z) (hv : v < 0) :
    Real.exp v ≤ boundUpperOf z v q := by
  unfold boundUpperOf
  apply Real.exp_le_exp.mpr
  have hnegv : (0:ℝ) < -v := by linarith
  rw [Real.exp_add, Real.exp_log hnegv]
  have hw : z * Real.sqrt q / v ≤ 0 :=
    div_nonpos_of_nonneg_of_nonpos (mul_nonneg hz (Real.sqrt_nonneg q)) hv.le
  have he : Real.exp (z * Real.sqrt q / v) ≤ 1 := Real.exp_le_one_iff.mpr hw
  nlinarith [mul_nonneg (neg_nonneg.mpr hv.le) (sub_nonneg.mpr he)]

theorem boundLowerOf_le (z v q : ℝ) (hz : 0 ≤ z) (hv : v < 0) :
    boundLowerOf z v q ≤ Real.exp v := by
  unfold boundLowerOf
  apply Real.exp_le_exp.mpr
  have hnegv : (0:ℝ) < -v := by linarith
  rw [sub_eq_add_neg, Real.exp_add, Real.exp_log hnegv]
  have hw : z * Real.sqrt q / v ≤ 0 :=
    div_nonpos_of_nonneg_of_nonpos (mul_nonneg hz (Real.sqrt_nonneg q)) hv.le
  have he : 1 ≤ Real.exp (-(z * Real.sqrt q / v)) := by
    rw [← Real.exp_zero]
    exact Real.exp_le_exp.mpr (by linarith)
  nlinarith [mul_nonneg (neg_nonneg.mpr hv.le) (sub_nonneg.mpr he)]

/-- C4: for `0 < S < 1`, `V >= 0` and `0 < alpha < 1`, the confidence-band
builder — with `z` the inverse standard normal cdf at `1 - alpha/2` and
`v = log S` re-derived from the exponentiated estimate — produces the upper
bound `exp(-exp(log(-v) + z*sqrt(V)/v))` and lower bound
`exp(-exp(log(-v) - z*sqrt(V)/v))`, both in `[0, 1]` and bracketing `S`. -/
theorem claim4_bounds_bracket (S V alpha : ℝ) (hS0 : 0 < S) (hS1 : S < 1)
    (hV : 0 ≤ V) (ha0 : 0 < alpha) (ha1 : alpha < 1) :
    boundUpper S V alpha ∈ Set.Icc (0:ℝ) 1 ∧ boundLower S V alpha ∈ Set.Icc (0:ℝ) 1 ∧
    boundLower S V alpha ≤ S ∧ S ≤ boundUpper S V alpha := by
  have hv : Real.log S < 0 := Real.log_neg hS0 hS1
  have hz : 0 ≤ inv_normal_cdf (1 - alpha / 2) := inv_normal_cdf_nonneg _ (by linarith)
  unfold boundUpper boundLower
  refine ⟨boundUpperOf_mem _ _ _, boundLowerOf_mem _ _ _, ?_, ?_⟩
  · have h := boundLowerOf_le (inv_normal_cdf (1 - alpha / 2)) (Real.log S) V hz hv
    rwa [Real.exp_log hS0] at h
  · have h := le_boundUpperOf (inv_normal_cdf (1 - alpha / 2)) (Real.log S) V hz hv
    rwa [Real.exp_log hS0] at h

/-- Witness for C4 at `S = 1/2`, `V = 1`, `alpha = 1/2`. -/
theorem claim4_bounds_bracket_witness :
    (0:ℝ) < 1/2 ∧ (1/2:ℝ) < 1 ∧ (0:ℝ) ≤ 1 ∧ (0:ℝ) < 1/2 ∧ (1/2:ℝ) < 1 ∧
    (boundUpper (1/2) 1 (1/2) ∈ Set.Icc (0:ℝ) 1 ∧
     boundLower (1/2) 1 (1/2) ∈ Set.Icc (0:ℝ) 1 ∧
     boundLower (1/2) 1 (1/2) ≤ 1/2 ∧ (1/2:ℝ) ≤ boundUpper (1/2) 1 (1/2)) :=
  ⟨by norm_num, by norm_num, by norm_num, by norm_num, by norm_num,
    claim4_bounds_bracket (1/2) 1 (1/2) (by norm_num) (by norm_num) (by norm_num)
      (by norm_num) (by norm_num)⟩

theorem resolvedAlpha_preResult (s : FitterState) (v : PreprocessResult) (label : String)
    (a : FitArgs) : resolvedAlpha (preResultState s v label) a = resolvedAlpha s a := rfl

theorem fit_eq_of_statError (c : Collaborators) (s : FitterState) (a : FitArgs) (ix : ℚ)
    (h : degeneracy_time a.entry (preprocessedTable c a) = some ix) :
    fit c s a =
      { state := preResultState s
          (c.preprocess a.durations a.event_observed a.timeline a.entry a.weights) a.label,
        warnings := fitWarnings a, error := some (FitError.statError ix) } := by
  unfold preprocessedTable at h
  unfold fit
  simp only [h]

theorem fit_error_eq (c : Collaborators) (s : FitterState) (a : FitArgs) :
    (fit c s a).error =
      match degeneracy_time a.entry (preprocessedTable c a) with
      | some ix => some (FitError.statError ix)
      | none =>
        if (ciLabelsArg s a).length = 2 then none else some FitError.validation := by
  cases hdeg : degeneracy_time a.entry (preprocessedTable c a) with
  | some ix => rw [fit_eq_of_statError c s a ix hdeg]
  | none =>
    unfold preprocessedTable at hdeg
    unfold fit
    simp only [hdeg]
    unfold bounds
    simp only [resolvedAlpha_preResult]
    by_cases hlen : (ciLabelsArg s a).length = 2
    · unfold ciLabelsArg at hlen
      simp only [hlen, if_pos]
      simp [ciLabelsArg, hlen]
    · unfold ciLabelsArg at hlen
      simp only [hlen, if_neg]
      simp [ciLabelsArg, hlen]

theorem fit_survival_function (c : Collaborators) (s : FitterState) (a : FitArgs) :
    (fit c s a).state.survival_function_ =
      (if a.left_censorship = false ∧ degeneracy_time a.entry (preprocessedTable c a) = none
       then some (fitEstimate c a) else s.survival_function_) := by
  cases hdeg : degeneracy_time a.entry (preprocessedTable c a) with
  | some ix =>
    rw [fit_eq_of_statError c s a ix hdeg]
    simp [preResultState]
  | none =>
    unfold preprocessedTable at hdeg
    unfold fit
    simp only [hdeg]
    split
    · cases hlc : a.left_censorship
      · simp [setattrEstimate, preResultState, fitEstimate, preprocessedTable, hdeg, hlc]
      · simp [setattrEstimate, preResultState, fitEstimate, preprocessedTable, hdeg, hlc]
    · cases hlc : a.left_censorship
      · simp [setattrEstimate, preResultState, fitEstimate, preprocessedTable, hdeg, hlc]
      · simp [setattrEstimate, preResultState, fitEstimate, preprocessedTable, hdeg, hlc]

theorem fit_cumulative_density (c : Collaborators) (s : FitterState) (a : FitArgs) :
    (fit c s a).state.cumulative_density_ =
      (if a.left_censorship = true ∧ degeneracy_time a.entry (preprocessedTable c a) = none
       then some (fitEstimate c a) else s.cumulative_density_) := by
  cases hdeg : degeneracy_time a.entry (preprocessedTable c a) with
  | some ix =>
    rw [fit_eq_of_statError c s a ix hdeg]
    simp [preResultState]
  | none =>
    unfold preprocessedTable at hdeg
    unfold fit
    simp only [hdeg]
    split
    · cases hlc : a.left_censorship
      · simp [setattrEstimate, preResultState, fitEstimate, preprocessedTable, hdeg, hlc]
      · simp [setattrEstimate, preResultState, fitEstimate, preprocessedTable, hdeg, hlc]
    · cases hlc : a.left_censorship
      · simp [setattrEstimate, preResultState, fitEstimate, preprocessedTable, hdeg, hlc]
      · simp [setattrEstimate, preResultState, fitEstimate, preprocessedTable, hdeg, hlc]

theorem fit_warnings_eq (c : Collaborators) (s : FitterState) (a : FitArgs) :
    (fit c s a).warnings = fitWarnings a := by
  cases hdeg : degeneracy_time a.entry (preprocessedTable c a) with
  | some ix => rw [fit_eq_of_statError c s a ix hdeg]
  | none =>
    unfold preprocessedTable at hdeg
    unfold fit
    simp only [hdeg]
    split <;> rfl

theorem fit_ci_names (c : Collaborators) (s : FitterState) (a : FitArgs)
    (h : (fit c s a).error = none) :
    ((fit c s a).state.confidence_interval_).map CIFrame.names =
      some [(ciLabelsArg s a).headD "", ((ciLabelsArg s a).drop 1).headD ""] := by
  rw [fit_error_eq] at h
  cases hdeg : degeneracy_time a.entry (preprocessedTable c a) with
  | some ix =>
    simp only [hdeg] at h
    exact Option.noConfusion h
  | none =>
    simp only [hdeg] at h
    by_cases hlen : (ciLabelsArg s a).length = 2
    · unfold preprocessedTable at hdeg
      unfold fit
      simp only [hdeg]
      unfold bounds
      simp only [resolvedAlpha_preResult]
      unfold ciLabelsArg at hlen
      simp only [hlen, if_pos]
      simp [ciLabelsArg, CIFrame.names, hlen]
    · rw [if_neg hlen] at h
      exact Option.noConfusion h

/-- C1: a `fit` call raises the statistical-degeneracy error with offending
time `t` if and only if entry times were supplied, the running net population
(cumulative entrances minus removals) restricted to the first half of the
timeline rows attains a minimum of zero, and `t` is the first time at which
that restricted net population hits zero; without entry times the error is
never raised. -/
theorem claim1_degeneracy_error_iff (c : Collaborators) (s : FitterState) (a : FitArgs) (t : ℚ) :
    (fit c s a).error = some (FitError.statError t) ↔
      a.entry.isSome = true ∧
      (0 ∈ restricted_net_population (preprocessedTable c a) ∧
        ∀ x ∈ restricted_net_population (preprocessedTable c a), 0 ≤ x) ∧
      first_zero_time (preprocessedTable c a) = some t := by
  rw [← degeneracy_time_eq_some_iff a.entry (preprocessedTable c a) t]
  rw [fit_error_eq]
  cases hdeg : degeneracy_time a.entry (preprocessedTable c a) with
  | some ix => simp
  | none =>
    by_cases hlen : (ciLabelsArg s a).length = 2 <;> simp [hlen]

/-- C10: a `fit` call whose event table has exactly one row never raises the
statistical-degeneracy error — the first-half restriction takes `int(n/2) = 0`
rows, and the empty slice cannot have minimum zero. -/
theorem claim10_single_row_no_error (c : Collaborators) (s : FitterState) (a : FitArgs)
    (_hentry : a.entry.isSome = true) (hlen : (preprocessedTable c a).length = 1) :
    ∀ t, (fit c s a).error ≠ some (FitError.statError t) := by
  intro t
  rw [fit_error_eq]
  have hser : restricted_series (preprocessedTable c a) = [] := by
    unfold restricted_series restricted_times
    rw [hlen]
    simp
  have hdeg : degeneracy_time a.entry (preprocessedTable c a) = none := by
    cases hent : a.entry with
    | none => simp [degeneracy_time]
    | some e => simp [degeneracy_time, hser, minPair]
  simp only [hdeg]
  by_cases hl : (ciLabelsArg s a).length = 2 <;> simp [hl]

/-- C7: the result attribute populated with the point estimate is chosen by
the left-censorship flag: the survival-function attribute is assigned (and the
cumulative-density attribute left untouched) exactly when the flag is false,
and vice versa — exactly one of the two is ever assigned by a fit that reaches
estimation. -/
theorem claim7_estimate_attribute (c : Collaborators) (s : FitterState) (a : FitArgs) :
    ((fit c s a).state.survival_function_ =
      (if a.left_censorship = false ∧ degeneracy_time a.entry (preprocessedTable c a) = none
       then some (fitEstimate c a) else s.survival_function_)) ∧
    ((fit c s a).state.cumulative_density_ =
      (if a.left_censorship = true ∧ degeneracy_time a.entry (preprocessedTable c a) = none
       then some (fitEstimate c a) else s.cumulative_density_)) :=
  ⟨fit_survival_function c s a, fit_cumulative_density c s a⟩

theorem truncQ_cast_eq_iff (w : ℚ) : ((truncQ w : ℚ) = w) ↔ ∃ z : ℤ, w = (z : ℚ) := by
  constructor
  · intro h
    exact ⟨truncQ w, h.symm⟩
  · rintro ⟨z, rfl⟩
    unfold truncQ
    rw [Rat.num_intCast, Rat.den_intCast]
    norm_num [Int.tdiv_one]

/-- C8: a `fit` call emits the statistical-caveat warning if and only if
weights were supplied and at least one of them is non-integral; and whether
`fit` fails is characterized by the degeneracy check and the label-pair length
alone — no weight value by itself causes `fit` to fail. -/
theorem claim8_weights (c : Collaborators) (s : FitterState) (a : FitArgs) :
    (FitWarning.statisticalWarning ∈ (fit c s a).warnings ↔
      ∃ ws, a.weights = some ws ∧ ∃ w ∈ ws, ¬ ∃ z : ℤ, w = (z : ℚ)) ∧
    ((fit c s a).error = none ↔
      degeneracy_time a.entry (preprocessedTable c a) = none ∧
      (ciLabelsArg s a).length = 2) := by
  constructor
  · rw [fit_warnings_eq]
    unfold fitWarnings
    cases hw : a.weights with
    | none => simp
    | some ws =>
      dsimp only
      by_cases hany : ws.any (fun w => decide (((truncQ w : ℚ)) ≠ w)) = true
      · rw [if_pos hany]
        simp only [List.mem_singleton, true_iff]
        refine ⟨ws, rfl, ?_⟩
        obtain ⟨w, hwmem, hwd⟩ := List.any_eq_true.mp hany
        refine ⟨w, hwmem, ?_⟩
        rw [← truncQ_cast_eq_iff]
        exact of_decide_eq_true hwd
      · rw [if_neg hany]
        simp only [List.not_mem_nil, false_iff]
        rintro ⟨ws', hws', w, hwmem, hwz⟩
        have : ws' = ws := (Option.some.inj hws').symm
        subst this
        apply hany
        refine List.any_eq_true.mpr ⟨w, hwmem, ?_⟩
        apply decide_eq_true
        rw [Ne, truncQ_cast_eq_iff]
        exact hwz
  · rw [fit_error_eq]
    cases hdeg : degeneracy_time a.entry (preprocessedTable c a) with
    | some ix => simp
    | none =>
      by_cases hlen : (ciLabelsArg s a).length = 2 <;> simp [hlen]

theorem degenerate_table_eq :
    preprocessedTable specCollaborators degenerateArgs = degenerateTable := by
  norm_num [preprocessedTable, specCollaborators, specPreprocess, degenerateArgs,
    degenerateTable, dedupSort, insertTime, zipSubjects, buildRows, sumW, List.filter]

theorem degenerate_bad_table_eq :
    preprocessedTable specCollaborators degenerateBadLabelArgs = degenerateTable := by
  norm_num [preprocessedTable, specCollaborators, specPreprocess, degenerateBadLabelArgs,
    degenerateTable, dedupSort, insertTime, zipSubjects, buildRows, sumW, List.filter]

theorem degenerateTable_degeneracy :
    degeneracy_time (some [2, 3, 0, 0]) degenerateTable = some 2 := by
  norm_num [degeneracy_time, restricted_series, restricted_times, restricted_net_population,
    net_population, cumsum, cumsumFrom, minPair, degenerateTable]

theorem degenerate_deg_fires :
    degeneracy_time degenerateArgs.entry
      (preprocessedTable specCollaborators degenerateArgs) = some 2 := by
  rw [degenerate_table_eq]
  exact degenerateTable_degeneracy

theorem degenerate_bad_deg_fires :
    degeneracy_time degenerateBadLabelArgs.entry
      (preprocessedTable specCollaborators degenerateBadLabelArgs) = some 2 := by
  rw [degenerate_bad_table_eq]
  exact degenerateTable_degeneracy

/-- Evaluation: on the degenerate inputs the fit aborts with `StatError` at
time 2. -/
theorem fit_degenerate_error :
    (fit specCollaborators (freshFitter (1/20)) degenerateArgs).error =
      some (FitError.statError 2) := by
  rw [fit_error_eq]
  simp [degenerate_deg_fires]

/-- C5, counterexample: on a fit call aborted by the degeneracy check, the
event-table attribute differs from its value before the call (it has been
assigned before the check runs), so not all result fields are left
unchanged. -/
theorem claim5_counterexample :
    (fit specCollaborators (freshFitter (1/20)) degenerateArgs).error =
        some (FitError.statError 2) ∧
    (fit specCollaborators (freshFitter (1/20)) degenerateArgs).state.event_table ≠
        (freshFitter (1/20)).event_table := by
  refine ⟨fit_degenerate_error, ?_⟩
  rw [fit_eq_of_statError specCollaborators (freshFitter (1/20)) degenerateArgs 2
    degenerate_deg_fires]
  simp [preResultState, freshFitter]

/-- C5, amended: when `fit` fails through the degeneracy check, the estimate
outputs (point estimate under either name, confidence band, median, cumulative
variance) are left exactly as before the call, while the input-derived
attributes (in particular the event table and the label) have already been
written. -/
theorem claim5_amended (c : Collaborators) (s : FitterState) (a : FitArgs) (t : ℚ)
    (h : (fit c s a).error = some (FitError.statError t)) :
    (fit c s a).state.survival_function_ = s.survival_function_ ∧
    (fit c s a).state.cumulative_density_ = s.cumulative_density_ ∧
    (fit c s a).state.confidence_interval_ = s.confidence_interval_ ∧
    (fit c s a).state.median_ = s.median_ ∧
    (fit c s a).state._cumulative_sq_ = s._cumulative_sq_ ∧
    (fit c s a).state.event_table = some (preprocessedTable c a) ∧
    (fit c s a).state._label = some a.label := by
  have hdeg : degeneracy_time a.entry (preprocessedTable c a) = some t := by
    rw [fit_error_eq] at h
    cases hd : degeneracy_time a.entry (preprocessedTable c a) with
    | some ix =>
      simp only [hd] at h
      have hix : ix = t := FitError.statError.inj (Option.some.inj h)
      rw [hix]
    | none =>
      simp only [hd] at h
      by_cases hl : (ciLabelsArg s a).length = 2 <;> simp [hl] at h
  rw [fit_eq_of_statError c s a t hdeg]
  simp [preResultState, preprocessedTable]

/-- Witness for the amended C5 theorem at the degenerate inputs on a fresh
fitter. -/
theorem claim5_amended_witness :
    (fit specCollaborators (freshFitter (1/20)) degenerateArgs).error =
        some (FitError.statError 2) ∧
    ((fit specCollaborators (freshFitter (1/20)) degenerateArgs).state.survival_function_ =
        (freshFitter (1/20)).survival_function_ ∧
     (fit specCollaborators (freshFitter (1/20)) degenerateArgs).state.cumulative_density_ =
        (freshFitter (1/20)).cumulative_density_ ∧
     (fit specCollaborators (freshFitter (1/20)) degenerateArgs).state.confidence_interval_ =
        (freshFitter (1/20)).confidence_interval_ ∧
     (fit specCollaborators (freshFitter (1/20)) degenerateArgs).state.median_ =
        (freshFitter (1/20)).median_ ∧
     (fit specCollaborators (freshFitter (1/20)) degenerateArgs).state._cumulative_sq_ =
        (freshFitter (1/20))._cumulative_sq_ ∧
     (fit specCollaborators (freshFitter (1/20)) degenerateArgs).state.event_table =
        some (preprocessedTable specCollaborators degenerateArgs) ∧
     (fit specCollaborators (freshFitter (1/20)) degenerateArgs).state._label =
        some degenerateArgs.label) :=
  ⟨fit_degenerate_error,
    claim5_amended specCollaborators (freshFitter (1/20)) degenerateArgs 2
      fit_degenerate_error⟩

/-- C6, amended: provided the degeneracy error does not fire first, a `fit`
call supplying a label list of length other than two fails with the
validation error; and when no labels are supplied, the two confidence-band
columns are named `<label>_upper_<1-alpha>` and `<label>_lower_<1-alpha>`,
using `1 - alpha`, not `1 - alpha/2`. -/
theorem claim6_labels (c : Collaborators) (s : FitterState) (a : FitArgs) :
    (∀ ls, a.ci_labels = some ls → ls.length ≠ 2 →
        degeneracy_time a.entry (preprocessedTable c a) = none →
        (fit c s a).error = some FitError.validation) ∧
    (a.ci_labels = none → (fit c s a).error = none →
        ((fit c s a).state.confidence_interval_).map CIFrame.names =
          some [a.label ++ "_upper_" ++ fmtQ (1 - resolvedAlpha s a),
                a.label ++ "_lower_" ++ fmtQ (1 - resolvedAlpha s a)]) := by
  constructor
  · intro ls hls hlen hdeg
    rw [fit_error_eq]
    simp only [hdeg]
    have hne : (ciLabelsArg s a).length ≠ 2 := by
      unfold ciLabelsArg
      rw [hls]
      exact hlen
    simp [hne]
  · intro hnone hsucc
    rw [fit_ci_names c s a hsucc]
    unfold ciLabelsArg
    rw [hnone]
    simp [defaultCiLabels]

theorem plain_no_degeneracy :
    degeneracy_time plainArgs.entry (preprocessedTable specCollaborators plainArgs) = none := rfl

theorem fit_plain_success :
    (fit specCollaborators (freshFitter (1/20)) plainArgs).error = none := by
  rw [fit_error_eq]
  simp [plainArgs, degeneracy_time, ciLabelsArg, defaultCiLabels]

theorem badLabel_no_degeneracy :
    degeneracy_time badLabelArgs.entry
      (preprocessedTable specCollaborators badLabelArgs) = none := rfl

/-- Witness for the amended C6 theorem: a bad label pair without truncation
fails with the validation error, and a plain call yields the default
column names. -/
theorem claim6_labels_witness :
    (badLabelArgs.ci_labels = some ["a"] ∧ (["a"] : List String).length ≠ 2 ∧
      degeneracy_time badLabelArgs.entry
        (preprocessedTable specCollaborators badLabelArgs) = none ∧
      (fit specCollaborators (freshFitter (1/20)) badLabelArgs).error =
        some FitError.validation) ∧
    (plainArgs.ci_labels = none ∧
      (fit specCollaborators (freshFitter (1/20)) plainArgs).error = none ∧
      ((fit specCollaborators (freshFitter (1/20)) plainArgs).state.confidence_interval_).map
          CIFrame.names =
        some [plainArgs.label ++ "_upper_" ++
                fmtQ (1 - resolvedAlpha (freshFitter (1/20)) plainArgs),
              plainArgs.label ++ "_lower_" ++
                fmtQ (1 - resolvedAlpha (freshFitter (1/20)) plainArgs)]) :=
  ⟨⟨rfl, by decide, badLabel_no_degeneracy,
      (claim6_labels specCollaborators (freshFitter (1/20)) badLabelArgs).1 ["a"] rfl
        (by decide) badLabel_no_degeneracy⟩,
   ⟨rfl, fit_plain_success,
      (claim6_labels specCollaborators (freshFitter (1/20)) plainArgs).2 rfl
        fit_plain_success⟩⟩

/-- C6, counterexample: a fit call supplying a malformed (length-1) label
list whose inputs also fire the degeneracy check fails with the degeneracy
`StatError`, not the claimed ValidationError. -/
theorem claim6_counterexample :
    degenerateBadLabelArgs.ci_labels = some ["a"] ∧
    (["a"] : List String).length ≠ 2 ∧
    (fit specCollaborators (freshFitter (1/20)) degenerateBadLabelArgs).error =
      some (FitError.statError 2) ∧
    (fit specCollaborators (freshFitter (1/20)) degenerateBadLabelArgs).error ≠
      some FitError.validation := by
  have herr : (fit specCollaborators (freshFitter (1/20)) degenerateBadLabelArgs).error =
      some (FitError.statError 2) := by
    rw [fit_error_eq]
    simp [degenerate_bad_deg_fires]
  refine ⟨rfl, by decide, herr, ?_⟩
  rw [herr]
  simp

theorem singleRow_table_len :
    (preprocessedTable specCollaborators singleRowArgs).length = 1 := rfl

theorem singleRow_netpop :
    net_population (preprocessedTable specCollaborators singleRowArgs) = [0] := by
  norm_num [net_population, preprocessedTable, specCollaborators, specPreprocess,
    singleRowArgs, dedupSort, insertTime, zipSubjects, buildRows, sumW, List.filter,
    cumsum, cumsumFrom]

/-- Witness for C10: a one-row event table with entry times supplied and the
row's net population equal to zero, on which `fit` raises no degeneracy
error. -/
theorem claim10_witness :
    singleRowArgs.entry.isSome = true ∧
    (preprocessedTable specCollaborators singleRowArgs).length = 1 ∧
    net_population (preprocessedTable specCollaborators singleRowArgs) = [0] ∧
    ∀ t, (fit specCollaborators (freshFitter (1/20)) singleRowArgs).error ≠
        some (FitError.statError t) :=
  ⟨rfl, singleRow_table_len, singleRow_netpop,
    claim10_single_row_no_error specCollaborators (freshFitter (1/20)) singleRowArgs rfl
      singleRow_table_len⟩

/-- C9: evaluating the contribution functions at a prior numeric
error-reporting mode of "warn"/"warn" (the numpy default): `_additive_f`
leaves the process-wide mode at "ignore"/"ignore", and `_additive_var` leaves
the divide mode at "ignore" — neither restores the prior mode after
returning, contradicting the claim that the suppression is scoped and the
mode restored. -/
theorem claim9_seterr_not_restored :
    (additive_f_st ⟨"warn", "warn"⟩ [2] [1]).2 = ⟨"ignore", "ignore"⟩ ∧
    (additive_var_st ⟨"warn", "warn"⟩ [2] [1]).2 = ⟨"warn", "ignore"⟩ ∧
    (⟨"ignore", "ignore"⟩ : NumErrState) ≠ ⟨"warn", "warn"⟩ ∧
    (⟨"warn", "ignore"⟩ : NumErrState) ≠ ⟨"warn", "warn"⟩ := by
  refine ⟨rfl, rfl, ?_, ?_⟩ <;> decide
